import Mathlib

/-!
Shallow embedding of the admin-gated content-management layer of the
repository (Next.js route handlers over Prisma), together with theorems
settling the specification claims about it.

The embedding models:
* `src/lib/auth-guards.ts` — `requireAdmin` and `verifyAdmin`;
* `src/app/api/projects/route.ts` (POST) and
  `src/app/api/projects/[id]/route.ts` (PATCH) — title/image validation,
  the upload loop and the best-effort cleanup in the catch block;
* `src/lib/tags.ts` — `resolveTagNamesToIds`;
* the tag item route (`PATCH`/`DELETE /api/tags/[id]`);
* the project reorder route (`PATCH /api/projects/order`), modelled from
  the spec because the handler file itself is not among the sources.

Database state is passed explicitly; Prisma lookups become list searches;
`Date` comparisons become `Nat` timestamps; exceptions become explicit
failure-injection parameters, and the effect trace (upload calls, cleanup
deletions, database writes) is returned in the result records.
-/

/-! ## Auth data model (User / Session tables, NextAuth session payload) -/

/-- A row of the `User` table; `isAdmin` is the sole authorization flag. -/
structure DbUser where
  id : String
  email : Option String
  isAdmin : Bool
deriving DecidableEq

/-- A row of the `Session` table: opaque token, expiry timestamp, user id. -/
structure DbSessionRow where
  sessionToken : String
  expires : Nat
  userId : String
deriving DecidableEq

/-- The database state the guards consult. -/
structure AuthDb where
  users : List DbUser
  sessions : List DbSessionRow
deriving DecidableEq

/-- Models `prisma.user.findUnique({ where: { id } })`. -/
def findUserById (db : AuthDb) (uid : String) : Option DbUser :=
  db.users.find? (fun u => u.id = uid)

/-- Models `prisma.user.findUnique({ where: { email } })`. -/
def findUserByEmail (db : AuthDb) (email : String) : Option DbUser :=
  db.users.find? (fun u => u.email = some email)

/-- Models `prisma.session.findUnique({ where: { sessionToken } })`. -/
def findSessionByToken (db : AuthDb) (tok : String) : Option DbSessionRow :=
  db.sessions.find? (fun s => s.sessionToken = tok)

/-- The `user` object embedded in a NextAuth session payload. Each field can
be absent (`undefined` in the source), hence the `Option`s; `isAdmin` is the
possibly stale flag baked into the session. -/
structure SessionUser where
  id : Option String
  email : Option String
  isAdmin : Option Bool
deriving DecidableEq

/-- A NextAuth session payload as seen by the guards (`session.user` can be
absent). -/
structure Session where
  user : Option SessionUser
deriving DecidableEq

/-- An incoming request, as far as the guards look at it. The source function
`getSessionTokenFromRequest` extracts the `next-auth.session-token` (or
`__Secure-next-auth.session-token`) cookie value from the `Cookie` header with
a regex, trims and URI-decodes it; we model the request as carrying that parse
result directly, `none` when no such cookie is present. -/
structure Request where
  sessionTokenCookie : Option String
deriving DecidableEq

/-- Models `getSessionTokenFromRequest` (auth-guards.ts lines 29–36); see
`Request` for the abstraction of the cookie-header regex. -/
def getSessionTokenFromRequest (request : Request) : Option String :=
  request.sessionTokenCookie

/-- Outcome of a guard: authorized, or a ready-made HTTP failure with the
given status code. -/
inductive GuardResult where
  | ok
  | fail (status : Nat)
deriving DecidableEq

/-- Models `requireAdmin` (auth-guards.ts lines 60–111). The resolved session
is an explicit argument (the source obtains it from `auth()`).

Control flow of the source: no session ⇒ 401; `session.user?.isAdmin === true`
⇒ authorized with no database lookup; otherwise, when the session carries a
truthy user id, look the user up by id and authorize when the record's
`isAdmin` is set; in every remaining case ⇒ 403. -/
def requireAdmin (session : Option Session) (db : AuthDb) : GuardResult :=
  match session with
  | none => .fail 401
  | some s =>
    if s.user.bind SessionUser.isAdmin = some true then .ok
    else
      match s.user.bind SessionUser.id with
      | some uid =>
        if uid = "" then .fail 403
        else
          match findUserById db uid with
          | some u => if u.isAdmin then .ok else .fail 403
          | none => .fail 403
      | none => .fail 403

/-- Models the email branch of `verifyAdmin` (auth-guards.ts lines 141–152):
when the session carries a truthy email, look the user up by email and confirm
only when the record's `isAdmin` is set; in every other case the branch does
not confirm and the guard falls through. -/
def emailLookupConfirmsAdmin (db : AuthDb) (s : Session) : Bool :=
  match s.user.bind SessionUser.email with
  | some email =>
    if email = "" then false
    else
      match findUserByEmail db email with
      | some u => u.isAdmin
      | none => false
  | none => false

/-- Models the session-token fallback of `verifyAdmin` (auth-guards.ts lines
154–176): parse the token cookie; when a persisted session row exists and is
not yet expired, grant when its user's `isAdmin` is set and fail with 403
otherwise; an expired or missing row (or no/empty token) decides nothing
(`none`), letting the caller fall through to the final 401. -/
def sessionTokenLookup (db : AuthDb) (now : Nat) (req : Request) : Option GuardResult :=
  match getSessionTokenFromRequest req with
  | some tok =>
    if tok = "" then none
    else
      match findSessionByToken db tok with
      | some row =>
        if now < row.expires then
          match findUserById db row.userId with
          | some u => if u.isAdmin then some .ok else some (.fail 403)
          | none => some (.fail 403)
        else none
      | none => none
  | none => none

/-- Models `verifyAdmin` (auth-guards.ts lines 127–186). The resolved session
is an explicit argument (the source obtains it via `getSession`); `now` is the
current time. No session ⇒ 401; the email lookup confirming ⇒ authorized;
otherwise the session-token fallback may decide; anything undecided ⇒ 401. -/
def verifyAdmin (request : Option Request) (session : Option Session)
    (db : AuthDb) (now : Nat) : GuardResult :=
  match session with
  | none => .fail 401
  | some s =>
    if emailLookupConfirmsAdmin db s then .ok
    else
      match request with
      | some req => (sessionTokenLookup db now req).getD (.fail 401)
      | none => .fail 401

/-! ## Helper lemmas about the guard branches -/

/-- When the email branch confirms, a database user with `isAdmin = true` was
found under the session's email. -/
theorem emailConfirms_sound (db : AuthDb) (s : Session)
    (h : emailLookupConfirmsAdmin db s = true) :
    ∃ e u, s.user.bind SessionUser.email = some e ∧
      findUserByEmail db e = some u ∧ u.isAdmin = true := by
  unfold emailLookupConfirmsAdmin at h
  split at h
  · rename_i e heq
    split at h
    · cases h
    · split at h
      · rename_i u hu
        exact ⟨e, u, heq, hu, h⟩
      · cases h
  · cases h

/-- Anything the session-token fallback decides comes from a non-expired
persisted session row reached through a non-empty parsed token; it decides
`ok` exactly when the row's user has `isAdmin = true`, and `fail 403`
otherwise. -/
theorem sessionTokenLookup_some (db : AuthDb) (now : Nat) (req : Request)
    (g : GuardResult) (h : sessionTokenLookup db now req = some g) :
    ∃ tok row, getSessionTokenFromRequest req = some tok ∧ tok ≠ "" ∧
      findSessionByToken db tok = some row ∧ now < row.expires ∧
      ((g = GuardResult.ok ∧
          (findUserById db row.userId).map DbUser.isAdmin = some true) ∨
       (g = GuardResult.fail 403 ∧
          (findUserById db row.userId).map DbUser.isAdmin ≠ some true)) := by
  unfold sessionTokenLookup at h
  split at h
  · rename_i tok hp
    split at h
    · cases h
    · rename_i h0
      split at h
      · rename_i row hr
        split at h
        · rename_i hexp
          refine ⟨tok, row, hp, h0, hr, hexp, ?_⟩
          split at h
          · rename_i u hu
            split at h
            · rename_i ha
              cases h
              exact Or.inl ⟨rfl, by rw [hu]; simp [ha]⟩
            · rename_i ha
              cases h
              refine Or.inr ⟨rfl, ?_⟩
              rw [hu]
              simp [Bool.eq_false_iff.mpr ha]
          · rename_i hu
            cases h
            exact Or.inr ⟨rfl, by rw [hu]; simp⟩
        · cases h
      · cases h
  · cases h

/-- When the session's embedded admin flag is not `true` and the user record
reachable through the session's user id (if any) has `isAdmin = false`,
`requireAdmin` fails with 403. -/
theorem requireAdmin_rejects (s : Session) (db : AuthDb)
    (hflag : s.user.bind SessionUser.isAdmin ≠ some true)
    (hid : ∀ uid u, s.user.bind SessionUser.id = some uid →
      findUserById db uid = some u → u.isAdmin = false) :
    requireAdmin (some s) db = GuardResult.fail 403 := by
  unfold requireAdmin
  dsimp only
  split
  · rename_i hf; exact absurd hf hflag
  · split
    · rename_i uid hidv
      split
      · rfl
      · split
        · rename_i u hu
          simp [hid uid u hidv hu]
        · rfl
    · rfl

/-- When every user record reachable through the session's email and through
any persisted session row for the request's token has `isAdmin = false`,
`verifyAdmin` does not grant access. -/
theorem verifyAdmin_not_ok (req : Option Request) (s : Session) (db : AuthDb)
    (now : Nat)
    (hemail : ∀ e u, s.user.bind SessionUser.email = some e →
      findUserByEmail db e = some u → u.isAdmin = false)
    (htok : ∀ r tok row u, req = some r → getSessionTokenFromRequest r = some tok →
      findSessionByToken db tok = some row → findUserById db row.userId = some u →
      u.isAdmin = false) :
    verifyAdmin req (some s) db now ≠ GuardResult.ok := by
  intro hok
  unfold verifyAdmin at hok
  dsimp only at hok
  split at hok
  · rename_i hconf
    obtain ⟨e, u, he, hu, hadm⟩ := emailConfirms_sound db s hconf
    rw [hemail e u he hu] at hadm
    cases hadm
  · cases req with
    | none => cases hok
    | some r =>
      dsimp only at hok
      cases hl : sessionTokenLookup db now r with
      | none => rw [hl] at hok; cases hok
      | some g =>
        rw [hl] at hok
        simp only [Option.getD] at hok
        subst hok
        obtain ⟨tok, row, hp, _, hr, _, hdisj⟩ :=
          sessionTokenLookup_some db now r GuardResult.ok hl
        rcases hdisj with ⟨_, hmap⟩ | ⟨hbad, _⟩
        · cases hu2 : findUserById db row.userId with
          | none => rw [hu2] at hmap; cases hmap
          | some u =>
            rw [hu2] at hmap
            simp only [Option.map] at hmap
            have hadm : u.isAdmin = true := by
              injection hmap
            rw [htok r tok row u rfl hp hr hu2] at hadm
            cases hadm
        · cases hbad

/-- Whenever `verifyAdmin` fails with 403, the decision came from the
session-token fallback: the request carried a non-empty token whose persisted
session row is not expired and whose user is not an admin. -/
theorem verifyAdmin_fail403_sound (req : Option Request) (s : Session)
    (db : AuthDb) (now : Nat)
    (h : verifyAdmin req (some s) db now = GuardResult.fail 403) :
    ∃ r tok row, req = some r ∧ getSessionTokenFromRequest r = some tok ∧
      tok ≠ "" ∧ findSessionByToken db tok = some row ∧ now < row.expires ∧
      (findUserById db row.userId).map DbUser.isAdmin ≠ some true := by
  unfold verifyAdmin at h
  dsimp only at h
  split at h
  · exact absurd h (by decide)
  · cases req with
    | none => simp at h
    | some r =>
      dsimp only at h
      cases hl : sessionTokenLookup db now r with
      | none =>
        rw [hl] at h
        exact absurd h (by decide)
      | some g =>
        rw [hl] at h
        simp only [Option.getD] at h
        subst h
        obtain ⟨tok, row, hp, h0, hr, hexp, hdisj⟩ :=
          sessionTokenLookup_some db now r (GuardResult.fail 403) hl
        rcases hdisj with ⟨hbad, _⟩ | ⟨_, hmap⟩
        · cases hbad
        · exact ⟨r, tok, row, rfl, hp, h0, hr, hexp, hmap⟩

/-! ## Claims C1, C2, C5 — the admin guards -/

/-- Claim C1 counterexample: a request whose session resolves (by user id) to
a database user with `isAdmin = false` is nevertheless granted access by
`requireAdmin` when the session payload's embedded `isAdmin` flag is still
`true` — the guard trusts the stale flag and never re-confirms against the
database, contradicting the claim that both guards always fail for such
users. -/
theorem c1_counterexample :
    findUserById ⟨[⟨"u1", some "admin@example.com", false⟩], []⟩ "u1" =
      some ⟨"u1", some "admin@example.com", false⟩ ∧
    requireAdmin
      (some ⟨some ⟨some "u1", some "admin@example.com", some true⟩⟩)
      ⟨[⟨"u1", some "admin@example.com", false⟩], []⟩ = GuardResult.ok := by
  constructor <;> rfl

/-- Claim C1 (amended): for a request whose session resolves to database
records all carrying `isAdmin = false`, `verifyAdmin` never grants access
(every one of its grant paths re-confirms against the database) — whatever
admin flag the session payload still claims — while `requireAdmin` fails with
403 only provided the session payload's embedded `isAdmin` flag is not
(stalely) `true`: `requireAdmin` trusts an embedded `true` flag without a
database re-check, so revocation takes effect for it only once the session
payload no longer claims admin. -/
theorem c1_admin_revocation_amended (s : Session) (db : AuthDb)
    (req : Option Request) (now : Nat)
    (hid : ∀ uid u, s.user.bind SessionUser.id = some uid →
      findUserById db uid = some u → u.isAdmin = false)
    (hemail : ∀ e u, s.user.bind SessionUser.email = some e →
      findUserByEmail db e = some u → u.isAdmin = false)
    (htok : ∀ r tok row u, req = some r → getSessionTokenFromRequest r = some tok →
      findSessionByToken db tok = some row → findUserById db row.userId = some u →
      u.isAdmin = false) :
    (s.user.bind SessionUser.isAdmin ≠ some true →
      requireAdmin (some s) db = GuardResult.fail 403) ∧
    verifyAdmin req (some s) db now ≠ GuardResult.ok :=
  ⟨fun hflag => requireAdmin_rejects s db hflag hid,
   verifyAdmin_not_ok req s db now hemail htok⟩

/-- Claim C1 witness: the amended theorem applied to a concrete revoked user
(`isAdmin = false` in the database, embedded session flag `false`): both
guards reject. -/
theorem c1_witness :
    requireAdmin (some ⟨some ⟨some "u1", some "bob@example.com", some false⟩⟩)
      ⟨[⟨"u1", some "bob@example.com", false⟩], [⟨"tok1", 100, "u1"⟩]⟩ =
      GuardResult.fail 403 ∧
    verifyAdmin (some ⟨some "tok1"⟩)
      (some ⟨some ⟨some "u1", some "bob@example.com", some false⟩⟩)
      ⟨[⟨"u1", some "bob@example.com", false⟩], [⟨"tok1", 100, "u1"⟩]⟩ 0 ≠
      GuardResult.ok := by
  refine (fun h => ⟨h.1 (by decide), h.2⟩)
    (c1_admin_revocation_amended
      ⟨some ⟨some "u1", some "bob@example.com", some false⟩⟩
      ⟨[⟨"u1", some "bob@example.com", false⟩], [⟨"tok1", 100, "u1"⟩]⟩
      (some ⟨some "tok1"⟩) 0 ?_ ?_ ?_)
  · intro uid u h1 h2
    have h1' : some "u1" = some uid := h1
    injection h1' with h1''
    subst h1''
    have h2' : some (⟨"u1", some "bob@example.com", false⟩ : DbUser) = some u := h2
    injection h2' with h2''
    subst h2''
    rfl
  · intro e u h1 h2
    have h1' : some "bob@example.com" = some e := h1
    injection h1' with h1''
    subst h1''
    have h2' : some (⟨"u1", some "bob@example.com", false⟩ : DbUser) = some u := h2
    injection h2' with h2''
    subst h2''
    rfl
  · intro r tok row u hr hp hrow hu
    have hr' : some (⟨some "tok1"⟩ : Request) = some r := hr
    injection hr' with hr''
    subst hr''
    have hp' : some "tok1" = some tok := hp
    injection hp' with hp''
    subst hp''
    have hrow' : some (⟨"tok1", 100, "u1"⟩ : DbSessionRow) = some row := hrow
    injection hrow' with hrow''
    subst hrow''
    have hu' : some (⟨"u1", some "bob@example.com", false⟩ : DbUser) = some u := hu
    injection hu' with hu''
    subst hu''
    rfl

/-- Claim C2 counterexample: a request with a resolvable session whose user's
database record has `isAdmin = false` gets a 401 from `verifyAdmin` — not the
403 the claim promises for every calling mode — because when the email lookup
does not confirm admin and no raw request (hence no session-token fallback) is
available, `verifyAdmin` falls through to its final 401 handler. -/
theorem c2_counterexample :
    findUserByEmail ⟨[⟨"u1", some "bob@example.com", false⟩], []⟩
        "bob@example.com" = some ⟨"u1", some "bob@example.com", false⟩ ∧
    verifyAdmin none
      (some ⟨some ⟨some "u1", some "bob@example.com", some false⟩⟩)
      ⟨[⟨"u1", some "bob@example.com", false⟩], []⟩ 0 = GuardResult.fail 401 := by
  constructor <;> rfl

/-- Claim C2 (amended): both guards return 401 when no session resolves, and
`requireAdmin` 401s only in that case; `requireAdmin` returns 403 for a
resolvable session whose user is not an admin (provided the embedded session
flag is not a stale `true`); `verifyAdmin`, however, reserves 403 for its
session-token fallback alone — any 403 it returns comes from a non-expired
persisted session row whose user is not an admin — and otherwise returns 401
even when a session was resolved (e.g. a non-admin session with no usable
token cookie). -/
theorem c2_failure_statuses_amended (req : Option Request) (s : Session)
    (db : AuthDb) (now : Nat) :
    (requireAdmin none db = GuardResult.fail 401 ∧
      verifyAdmin req none db now = GuardResult.fail 401) ∧
    requireAdmin (some s) db ≠ GuardResult.fail 401 ∧
    (s.user.bind SessionUser.isAdmin ≠ some true →
      (∀ uid u, s.user.bind SessionUser.id = some uid →
        findUserById db uid = some u → u.isAdmin = false) →
      requireAdmin (some s) db = GuardResult.fail 403) ∧
    (verifyAdmin req (some s) db now = GuardResult.fail 403 →
      ∃ r tok row, req = some r ∧ getSessionTokenFromRequest r = some tok ∧
        tok ≠ "" ∧ findSessionByToken db tok = some row ∧ now < row.expires ∧
        (findUserById db row.userId).map DbUser.isAdmin ≠ some true) ∧
    (emailLookupConfirmsAdmin db s = false →
      (∀ r, req = some r → sessionTokenLookup db now r = none) →
      verifyAdmin req (some s) db now = GuardResult.fail 401) := by
  refine ⟨⟨rfl, rfl⟩, ?_, ?_, ?_, ?_⟩
  · intro h
    unfold requireAdmin at h
    dsimp only at h
    split at h
    · cases h
    · split at h
      · split at h
        · exact absurd h (by decide)
        · split at h
          · split at h
            · cases h
            · exact absurd h (by decide)
          · exact absurd h (by decide)
      · exact absurd h (by decide)
  · intro hflag hid
    exact requireAdmin_rejects s db hflag hid
  · intro h
    exact verifyAdmin_fail403_sound req s db now h
  · intro hconf htokn
    unfold verifyAdmin
    dsimp only
    rw [hconf]
    cases req with
    | none => simp
    | some r => simp [htokn r rfl]

/-- Claim C2 witness: the amended theorem applied to concrete requests — a
sessionless request gets 401 from `requireAdmin`, and a resolvable non-admin
session gets 403 from it. -/
theorem c2_witness :
    requireAdmin none ⟨[], []⟩ = GuardResult.fail 401 ∧
    requireAdmin (some ⟨some ⟨some "u1", some "bob@example.com", some false⟩⟩)
      ⟨[⟨"u1", some "bob@example.com", false⟩], []⟩ = GuardResult.fail 403 := by
  constructor
  · exact (c2_failure_statuses_amended none ⟨none⟩ ⟨[], []⟩ 0).1.1
  · refine (c2_failure_statuses_amended none
      ⟨some ⟨some "u1", some "bob@example.com", some false⟩⟩
      ⟨[⟨"u1", some "bob@example.com", false⟩], []⟩ 0).2.2.1 (by decide) ?_
    intro uid u h1 h2
    have h1' : some "u1" = some uid := h1
    injection h1' with h1''
    subst h1''
    have h2' : some (⟨"u1", some "bob@example.com", false⟩ : DbUser) = some u := h2
    injection h2' with h2''
    subst h2''
    rfl

/-- Claim C5 (confirmed): in `verifyAdmin`'s session-token fallback (email
lookup not confirming, a non-empty session token parsed from the request),
when a persisted session row exists access is granted iff the row's expiry is
strictly later than the current time and its user's `isAdmin` is true; a
non-expired row with a non-admin user yields 403; an expired row, like a token
with no row, falls through to the final 401. -/
theorem c5_token_fallback (db : AuthDb) (now : Nat) (s : Session)
    (req : Request) (tok : String)
    (hconf : emailLookupConfirmsAdmin db s = false)
    (hp : getSessionTokenFromRequest req = some tok) (hne : tok ≠ "") :
    (∀ row, findSessionByToken db tok = some row →
      (now < row.expires →
        ((verifyAdmin (some req) (some s) db now = GuardResult.ok ↔
            (findUserById db row.userId).map DbUser.isAdmin = some true) ∧
         ((findUserById db row.userId).map DbUser.isAdmin ≠ some true →
            verifyAdmin (some req) (some s) db now = GuardResult.fail 403))) ∧
      (¬ now < row.expires →
        verifyAdmin (some req) (some s) db now = GuardResult.fail 401)) ∧
    (findSessionByToken db tok = none →
      verifyAdmin (some req) (some s) db now = GuardResult.fail 401) := by
  have hbase : verifyAdmin (some req) (some s) db now
      = (sessionTokenLookup db now req).getD (GuardResult.fail 401) := by
    unfold verifyAdmin
    dsimp only
    rw [hconf]
    simp
  have htl : sessionTokenLookup db now req
      = match findSessionByToken db tok with
        | some row =>
          if now < row.expires then
            match findUserById db row.userId with
            | some u =>
              if u.isAdmin then some GuardResult.ok
              else some (GuardResult.fail 403)
            | none => some (GuardResult.fail 403)
          else none
        | none => none := by
    unfold sessionTokenLookup
    rw [hp]
    dsimp only
    rw [if_neg hne]
  constructor
  · intro row hrow
    constructor
    · intro hexp
      have hv2 : verifyAdmin (some req) (some s) db now
          = (match findUserById db row.userId with
             | some u =>
               if u.isAdmin then some GuardResult.ok
               else some (GuardResult.fail 403)
             | none => some (GuardResult.fail 403)).getD (GuardResult.fail 401) := by
        rw [hbase, htl, hrow]
        dsimp only
        rw [if_pos hexp]
      cases hu : findUserById db row.userId with
      | none =>
        rw [hu] at hv2
        dsimp only [Option.getD] at hv2
        constructor
        · rw [hv2]
          constructor
          · intro h; cases h
          · intro hmap; simp at hmap
        · intro _; exact hv2
      | some u =>
        rw [hu] at hv2
        dsimp only at hv2
        by_cases ha : u.isAdmin
        · rw [if_pos ha] at hv2
          dsimp only [Option.getD] at hv2
          constructor
          · rw [hv2]
            constructor
            · intro _
              simp [ha]
            · intro _; rfl
          · intro hmap
            exfalso
            apply hmap
            simp [ha]
        · rw [if_neg ha] at hv2
          dsimp only [Option.getD] at hv2
          constructor
          · rw [hv2]
            constructor
            · intro h; cases h
            · intro hmap
              simp only [Option.map] at hmap
              have hadm : u.isAdmin = true := by injection hmap
              exact absurd hadm ha
          · intro _; exact hv2
    · intro hexp
      rw [hbase, htl, hrow]
      dsimp only
      rw [if_neg hexp]
      rfl
  · intro hnone
    rw [hbase, htl, hnone]
    rfl

/-- Claim C5 witness: the theorem applied to a concrete non-expired session
row for an admin user (access granted), re-using its grant-iff direction. -/
theorem c5_witness :
    verifyAdmin (some ⟨some "tok1"⟩) (some ⟨none⟩)
      ⟨[⟨"u1", none, true⟩], [⟨"tok1", 100, "u1"⟩]⟩ 0 = GuardResult.ok := by
  have h := c5_token_fallback ⟨[⟨"u1", none, true⟩], [⟨"tok1", 100, "u1"⟩]⟩ 0
    ⟨none⟩ ⟨some "tok1"⟩ "tok1" rfl rfl (by decide)
  exact ((h.1 ⟨"tok1", 100, "u1"⟩ rfl).1 (by decide)).1.mpr rfl

/-! ## Project create / update handlers (POST /api/projects,
PATCH /api/projects/[id]) -/

/-- The allowed image MIME types (identical constant in both route files). -/
def ALLOWED_IMAGE_TYPES : List String :=
  ["image/jpeg", "image/jpg", "image/png", "image/webp", "image/gif"]

/-- The 10MB image size cap (identical constant in both route files). -/
def MAX_IMAGE_SIZE_BYTES : Nat := 10 * 1024 * 1024

/-- An uploaded file as the handlers look at it: byte size and MIME type. -/
structure ImgFile where
  size : Nat
  type : String
deriving DecidableEq

/-- A multipart form-data value: a string field or a file. -/
inductive FormVal where
  | str (s : String)
  | file (f : ImgFile)
deriving DecidableEq

/-- A submitted image passes validation when its MIME type is allowed and its
size does not exceed the cap (the source performs the two checks separately,
each returning 400). -/
def validImage (f : ImgFile) : Bool :=
  ALLOWED_IMAGE_TYPES.contains f.type && !(decide (MAX_IMAGE_SIZE_BYTES < f.size))

/-- Models JavaScript `String.prototype.trim` (drop leading and trailing
whitespace) over the character list, so that it evaluates by kernel
reduction. -/
def jsTrim (s : String) : String :=
  ⟨((s.data.dropWhile Char.isWhitespace).reverse.dropWhile
      Char.isWhitespace).reverse⟩

/-- Models the handlers' title validation: `!title || typeof title !==
"string"` rejects an absent title, a file value and the empty string; the
remaining string is trimmed and rejected when blank. Returns the trimmed
title on success. -/
def titleValid (title : Option FormVal) : Option String :=
  match title with
  | some (.str s) =>
    if s = "" then none
    else if jsTrim s = "" then none
    else some (jsTrim s)
  | _ => none

/-- Models the `imageFiles` filter of both handlers: keep the `image` entries
that are files with positive size. -/
def filterFiles (entries : List FormVal) : List ImgFile :=
  entries.filterMap (fun e =>
    match e with
    | .file f => if 0 < f.size then some f else none
    | .str _ => none)

/-- Outcome of the per-image validate-then-upload loop shared (textually
duplicated) by the handlers: `ok` when every file validated and uploaded,
`badRequest` when a validation check returned 400 mid-loop, `threw` when an
`uploadImage` call raised. `uploaded` is the accumulated
`uploadedPublicIds`/`newUploadedPublicIds` list (public ids are modelled as
consecutive naturals from an upload counter); a throwing upload is a call that
contributes no id. -/
inductive LoopResult where
  | ok (uploaded : List Nat) (next : Nat)
  | badRequest (uploaded : List Nat) (next : Nat)
  | threw (uploaded : List Nat) (next : Nat)
deriving DecidableEq

/-- Models the `for (const image of imageFiles)` loop of the handlers: each
file's MIME type and size are checked immediately before that file's upload;
the first failing check returns 400 on the spot, leaving the uploads already
performed in place. `uploadFails n` injects a thrown `uploadImage` for the
n-th upload. -/
def uploadLoop (files : List ImgFile) (uploadFails : Nat → Bool)
    (next : Nat) (uploaded : List Nat) : LoopResult :=
  match files with
  | [] => .ok uploaded next
  | f :: rest =>
    if ¬ ALLOWED_IMAGE_TYPES.contains f.type then .badRequest uploaded next
    else if MAX_IMAGE_SIZE_BYTES < f.size then .badRequest uploaded next
    else if uploadFails next then .threw uploaded next
    else uploadLoop rest uploadFails (next + 1) (uploaded ++ [next])

/-- Result of a project create/update handler run: HTTP status, number of
`uploadImage` invocations, the public ids successfully uploaded, the public
ids the catch block tried to delete (best-effort cleanup), and whether the
project create/update database write ran. -/
structure HandlerResult where
  status : Nat
  uploadCalls : Nat
  uploadedIds : List Nat
  cleanupDeletes : List Nat
  dbWrite : Bool
deriving DecidableEq

/-- Models the tail shared by the handlers once the upload loop runs: a 400
from the loop is returned directly (no cleanup — the catch block only guards
exceptions); a thrown upload or a failing database write lands in the catch
block, which deletes every id in the uploaded-ids list and returns 500;
otherwise the database write runs and the handler succeeds with
`successStatus` (201 for create, 200 for update). -/
def finishUploadAndWrite (successStatus : Nat) (imageFiles : List ImgFile)
    (uploadFails : Nat → Bool) (dbWriteFails : Bool) : HandlerResult :=
  match uploadLoop imageFiles uploadFails 0 [] with
  | .badRequest up _ =>
    { status := 400, uploadCalls := up.length, uploadedIds := up,
      cleanupDeletes := [], dbWrite := false }
  | .threw up _ =>
    { status := 500, uploadCalls := up.length + 1, uploadedIds := up,
      cleanupDeletes := up, dbWrite := false }
  | .ok up _ =>
    if dbWriteFails then
      { status := 500, uploadCalls := up.length, uploadedIds := up,
        cleanupDeletes := up, dbWrite := false }
    else
      { status := successStatus, uploadCalls := up.length, uploadedIds := up,
        cleanupDeletes := [], dbWrite := true }

/-- The form data `POST /api/projects` reads (`description`, `category`,
`featured` and `thumbnailIndex` do not affect status or effect traces and are
omitted). -/
structure PostForm where
  title : Option FormVal
  images : List FormVal
deriving DecidableEq

/-- Models `POST /api/projects` (projects collection route): guard failure is
returned as-is; an absent/non-string/blank title gives 400 before any upload
or database write; then each image is validated and uploaded in order, and
`prisma.project.create` runs, with the catch block cleaning up uploaded
assets on an exception (500). -/
def postProject (guard : GuardResult) (form : PostForm)
    (uploadFails : Nat → Bool) (dbCreateFails : Bool) : HandlerResult :=
  match guard with
  | .fail st =>
    { status := st, uploadCalls := 0, uploadedIds := [],
      cleanupDeletes := [], dbWrite := false }
  | .ok =>
    match titleValid form.title with
    | none =>
      { status := 400, uploadCalls := 0, uploadedIds := [],
        cleanupDeletes := [], dbWrite := false }
    | some _ =>
      finishUploadAndWrite 201 (filterFiles form.images) uploadFails dbCreateFails

/-- A `ProjectImage` row as the PATCH handler uses it. -/
structure ProjImage where
  imagePublicId : Nat
  sortOrder : Nat
deriving DecidableEq

/-- The existing project row the PATCH handler loads (fields not affecting
status or effect traces omitted). -/
structure ExistingProject where
  images : List ProjImage
  imagePublicId : Option Nat
deriving DecidableEq

/-- The form data `PATCH /api/projects/[id]` reads (again, fields with no
effect on status or the upload/cleanup traces — `description`, `featured`,
`tags`, `thumbnailIndex` — are omitted; public ids are naturals as in
`HandlerResult`). -/
structure PatchForm where
  title : Option FormVal
  images : List FormVal
  removeImage : Option FormVal
  keepPublicIds : List Nat
deriving DecidableEq

/-- Models the `removeImage === "true"` test of the PATCH handler. -/
def removeImageFlag : Option FormVal → Bool
  | some (.str s) => s = "true"
  | _ => false

/-- Models `PATCH /api/projects/[id]` (current route file, first document):
guard → 404 when the project is missing → title validation → three image
branches (`removeImage === "true"`; removing/adding some images; text-only
update). Deleting an existing image that fails returns 500 directly (before
any upload); the upload loop and catch-block cleanup behave as in
`finishUploadAndWrite`. `deleteExistingFails` injects a failing
`deleteImage` on the existing images, `dbUpdateFails` a throwing
`prisma.project.update`. The tag-resolution side call does not affect the
modelled outcomes and is omitted. -/
def patchProject (guard : GuardResult) (existing : Option ExistingProject)
    (form : PatchForm) (deleteExistingFails : Bool)
    (uploadFails : Nat → Bool) (dbUpdateFails : Bool) : HandlerResult :=
  match guard with
  | .fail st =>
    { status := st, uploadCalls := 0, uploadedIds := [],
      cleanupDeletes := [], dbWrite := false }
  | .ok =>
    match existing with
    | none =>
      { status := 404, uploadCalls := 0, uploadedIds := [],
        cleanupDeletes := [], dbWrite := false }
    | some ex =>
      match titleValid form.title with
      | none =>
        { status := 400, uploadCalls := 0, uploadedIds := [],
          cleanupDeletes := [], dbWrite := false }
      | some _ =>
        let imageFiles := filterFiles form.images
        if removeImageFlag form.removeImage then
          if imageFiles.length = 0 then
            { status := 400, uploadCalls := 0, uploadedIds := [],
              cleanupDeletes := [], dbWrite := false }
          else
            let publicIdsToDelete :=
              ex.images.map ProjImage.imagePublicId ++
                (match ex.imagePublicId with | some p => [p] | none => [])
            if deleteExistingFails && !publicIdsToDelete.isEmpty then
              { status := 500, uploadCalls := 0, uploadedIds := [],
                cleanupDeletes := [], dbWrite := false }
            else
              finishUploadAndWrite 200 imageFiles uploadFails dbUpdateFails
        else
          let keepSet := form.keepPublicIds.dedup
          if keepSet.length < ex.images.length || 0 < imageFiles.length then
            let toDelete := ex.images.filter
              (fun i => !keepSet.contains i.imagePublicId)
            let kept := ex.images.filter
              (fun i => keepSet.contains i.imagePublicId)
            if kept.length = 0 && imageFiles.length = 0 then
              { status := 400, uploadCalls := 0, uploadedIds := [],
                cleanupDeletes := [], dbWrite := false }
            else if deleteExistingFails && !toDelete.isEmpty then
              { status := 500, uploadCalls := 0, uploadedIds := [],
                cleanupDeletes := [], dbWrite := false }
            else
              finishUploadAndWrite 200 imageFiles uploadFails dbUpdateFails
          else
            if dbUpdateFails then
              { status := 500, uploadCalls := 0, uploadedIds := [],
                cleanupDeletes := [], dbWrite := false }
            else
              { status := 200, uploadCalls := 0, uploadedIds := [],
                cleanupDeletes := [], dbWrite := true }

/-- The upload loop stops with 400 at the first invalid file, after having
uploaded exactly the valid files that preceded it. -/
theorem uploadLoop_stops_at_invalid (bad : ImgFile) (rest : List ImgFile)
    (uf : Nat → Bool) (huf : ∀ n, uf n = false)
    (hbad : validImage bad = false) :
    ∀ (pre : List ImgFile), (∀ f ∈ pre, validImage f = true) →
    ∀ (next : Nat) (acc : List Nat), ∃ up n2,
      uploadLoop (pre ++ bad :: rest) uf next acc = .badRequest up n2 ∧
      up.length = acc.length + pre.length := by
  intro pre
  induction pre with
  | nil =>
    intro _ next acc
    refine ⟨acc, next, ?_, by simp⟩
    by_cases hc : ALLOWED_IMAGE_TYPES.contains bad.type = true
    · have hsize : MAX_IMAGE_SIZE_BYTES < bad.size := by
        unfold validImage at hbad
        rw [hc] at hbad
        simpa using hbad
      unfold uploadLoop
      rw [List.nil_append]
      dsimp only
      rw [if_neg (not_not_intro hc), if_pos hsize]
    · unfold uploadLoop
      rw [List.nil_append]
      dsimp only
      rw [if_pos hc]
  | cons f pre ih =>
    intro hpre next acc
    have hf := hpre f (by simp)
    unfold validImage at hf
    have hc : ALLOWED_IMAGE_TYPES.contains f.type = true :=
      (Bool.and_eq_true_iff.mp hf).1
    have hsize : ¬ MAX_IMAGE_SIZE_BYTES < f.size := by
      have h2 := (Bool.and_eq_true_iff.mp hf).2
      simpa using h2
    obtain ⟨up, n2, heq, hlen⟩ :=
      ih (fun g hg => hpre g (List.mem_cons_of_mem f hg)) (next + 1) (acc ++ [next])
    refine ⟨up, n2, ?_, ?_⟩
    · unfold uploadLoop
      rw [List.cons_append]
      dsimp only
      rw [if_neg (not_not_intro hc), if_neg hsize, if_neg (by simp [huf next])]
      exact heq
    · rw [hlen]
      simp
      omega

/-- Every 500 response from `finishUploadAndWrite` (for a non-500 success
status) goes through the catch block, whose cleanup loop targets exactly the
uploaded public ids. -/
theorem finish_cleanup_on_500 (ss : Nat) (files : List ImgFile)
    (uf : Nat → Bool) (dbf : Bool) (hss : ss ≠ 500) :
    (finishUploadAndWrite ss files uf dbf).status = 500 →
    (finishUploadAndWrite ss files uf dbf).cleanupDeletes =
      (finishUploadAndWrite ss files uf dbf).uploadedIds := by
  unfold finishUploadAndWrite
  generalize uploadLoop files uf 0 [] = L
  cases L with
  | badRequest up n =>
    dsimp only
    intro h
    simp at h
  | threw up n =>
    intro _
    rfl
  | ok up n =>
    cases dbf with
    | false =>
      dsimp only
      intro h
      simp at h
      exact absurd h hss
    | true => intro _; rfl

/-! ## Claims C3, C4, C9 — handler validation and cleanup -/

/-- Claim C3 counterexample: an admin POST /api/projects whose image list has
a valid file followed by a file of a disallowed MIME type returns 400 — but
only after one `uploadImage` call (for the first, valid file), contradicting
the claim that no upload call is made during the request. -/
theorem c3_counterexample :
    (postProject GuardResult.ok
      { title := some (.str "Title"),
        images := [.file ⟨5, "image/png"⟩, .file ⟨5, "text/plain"⟩] }
      (fun _ => false) false).status = 400 ∧
    (postProject GuardResult.ok
      { title := some (.str "Title"),
        images := [.file ⟨5, "image/png"⟩, .file ⟨5, "text/plain"⟩] }
      (fun _ => false) false).uploadCalls = 1 := by
  constructor <;> rfl

/-- Claim C3 (amended): in both the create (POST /api/projects) and update
(PATCH /api/projects/[id]) handlers, a submitted image file over the 10MB cap
or with a disallowed MIME type makes the handler return 400 — but images are
validated one at a time immediately before each upload, so upload calls are
avoided only for the invalid file and the files after it: exactly the valid
files preceding the first invalid one get uploaded (none when the invalid
file comes first). -/
theorem c3_image_validation_amended
    (pre rest : List ImgFile) (bad : ImgFile)
    (hpre : ∀ f ∈ pre, validImage f = true)
    (hbad : validImage bad = false)
    (form : PostForm) (pform : PatchForm) (ex : ExistingProject)
    (dbf dbf2 : Bool) (t t2 : String)
    (hfiles : filterFiles form.images = pre ++ bad :: rest)
    (hpfiles : filterFiles pform.images = pre ++ bad :: rest)
    (ht : titleValid form.title = some t)
    (ht2 : titleValid pform.title = some t2) :
    ((postProject GuardResult.ok form (fun _ => false) dbf).status = 400 ∧
     (postProject GuardResult.ok form (fun _ => false) dbf).uploadCalls =
       pre.length) ∧
    ((patchProject GuardResult.ok (some ex) pform false (fun _ => false)
        dbf2).status = 400 ∧
     (patchProject GuardResult.ok (some ex) pform false (fun _ => false)
        dbf2).uploadCalls = pre.length) := by
  obtain ⟨up, n2, heq, hlen⟩ :=
    uploadLoop_stops_at_invalid bad rest (fun _ => false) (fun _ => rfl) hbad
      pre hpre 0 []
  have hlen0 : up.length = pre.length := by simpa using hlen
  have hfin : finishUploadAndWrite 201 (pre ++ bad :: rest) (fun _ => false) dbf
      = { status := 400, uploadCalls := up.length, uploadedIds := up,
          cleanupDeletes := [], dbWrite := false } := by
    unfold finishUploadAndWrite
    rw [heq]
  have hfin2 : finishUploadAndWrite 200 (pre ++ bad :: rest) (fun _ => false) dbf2
      = { status := 400, uploadCalls := up.length, uploadedIds := up,
          cleanupDeletes := [], dbWrite := false } := by
    unfold finishUploadAndWrite
    rw [heq]
  have hpost : postProject GuardResult.ok form (fun _ => false) dbf
      = { status := 400, uploadCalls := up.length, uploadedIds := up,
          cleanupDeletes := [], dbWrite := false } := by
    unfold postProject
    rw [ht]
    dsimp only
    rw [hfiles]
    exact hfin
  have hpatch : patchProject GuardResult.ok (some ex) pform false
      (fun _ => false) dbf2
      = { status := 400, uploadCalls := up.length, uploadedIds := up,
          cleanupDeletes := [], dbWrite := false } := by
    unfold patchProject
    dsimp only
    rw [ht2]
    dsimp only
    rw [hpfiles]
    by_cases hrm : removeImageFlag pform.removeImage = true
    · rw [if_pos hrm]
      rw [if_neg (by simp)]
      rw [if_neg (by simp)]
      exact hfin2
    · rw [if_neg hrm]
      rw [if_pos (by simp)]
      rw [if_neg (by simp)]
      rw [if_neg (by simp)]
      exact hfin2
  refine ⟨⟨?_, ?_⟩, ?_, ?_⟩
  · rw [hpost]
  · rw [hpost, hlen0]
  · rw [hpatch]
  · rw [hpatch, hlen0]

/-- Claim C3 witness: the amended theorem at a concrete two-file request
(valid PNG, then a text/plain file): both handlers return 400 after exactly
one upload call. -/
theorem c3_witness :
    ((postProject GuardResult.ok
        { title := some (.str "Title"),
          images := [.file ⟨5, "image/png"⟩, .file ⟨5, "text/plain"⟩] }
        (fun _ => false) false).status = 400 ∧
     (postProject GuardResult.ok
        { title := some (.str "Title"),
          images := [.file ⟨5, "image/png"⟩, .file ⟨5, "text/plain"⟩] }
        (fun _ => false) false).uploadCalls =
          [(⟨5, "image/png"⟩ : ImgFile)].length) ∧
    ((patchProject GuardResult.ok
        (some { images := [], imagePublicId := none })
        { title := some (.str "Title"),
          images := [.file ⟨5, "image/png"⟩, .file ⟨5, "text/plain"⟩],
          removeImage := none, keepPublicIds := [] }
        false (fun _ => false) false).status = 400 ∧
     (patchProject GuardResult.ok
        (some { images := [], imagePublicId := none })
        { title := some (.str "Title"),
          images := [.file ⟨5, "image/png"⟩, .file ⟨5, "text/plain"⟩],
          removeImage := none, keepPublicIds := [] }
        false (fun _ => false) false).uploadCalls =
          [(⟨5, "image/png"⟩ : ImgFile)].length) :=
  c3_image_validation_amended [⟨5, "image/png"⟩] [] ⟨5, "text/plain"⟩
    (by decide) (by decide)
    { title := some (.str "Title"),
      images := [.file ⟨5, "image/png"⟩, .file ⟨5, "text/plain"⟩] }
    { title := some (.str "Title"),
      images := [.file ⟨5, "image/png"⟩, .file ⟨5, "text/plain"⟩],
      removeImage := none, keepPublicIds := [] }
    { images := [], imagePublicId := none } false false "Title" "Title"
    rfl rfl rfl rfl

/-- Claim C4 (confirmed): an admin POST /api/projects whose form data has no
title, a non-string title, or a title trimming to the empty string returns
400, performs no database write and makes no upload call. -/
theorem c4_empty_title_rejected (form : PostForm) (uf : Nat → Bool)
    (dbf : Bool)
    (h : form.title = none ∨ (∃ f, form.title = some (.file f)) ∨
      (∃ s, form.title = some (.str s) ∧ jsTrim s = "")) :
    (postProject GuardResult.ok form uf dbf).status = 400 ∧
    (postProject GuardResult.ok form uf dbf).dbWrite = false ∧
    (postProject GuardResult.ok form uf dbf).uploadCalls = 0 := by
  have ht : titleValid form.title = none := by
    rcases h with h | ⟨f, h⟩ | ⟨s, h, hs⟩
    · rw [h]; rfl
    · rw [h]; rfl
    · rw [h]
      unfold titleValid
      dsimp only
      by_cases h0 : s = ""
      · rw [if_pos h0]
      · rw [if_neg h0, if_pos hs]
  have hp : postProject GuardResult.ok form uf dbf
      = { status := 400, uploadCalls := 0, uploadedIds := [],
          cleanupDeletes := [], dbWrite := false } := by
    unfold postProject
    rw [ht]
  exact ⟨by rw [hp], by rw [hp], by rw [hp]⟩

/-- Claim C4 witness: the theorem at a concrete whitespace-only title. -/
theorem c4_witness :
    (postProject GuardResult.ok
      { title := some (.str "   "), images := [.file ⟨5, "image/png"⟩] }
      (fun _ => false) false).status = 400 ∧
    (postProject GuardResult.ok
      { title := some (.str "   "), images := [.file ⟨5, "image/png"⟩] }
      (fun _ => false) false).dbWrite = false ∧
    (postProject GuardResult.ok
      { title := some (.str "   "), images := [.file ⟨5, "image/png"⟩] }
      (fun _ => false) false).uploadCalls = 0 :=
  c4_empty_title_rejected
    { title := some (.str "   "), images := [.file ⟨5, "image/png"⟩] }
    (fun _ => false) false (Or.inr (Or.inr ⟨"   ", rfl, rfl⟩))

/-- Claim C9 (confirmed): whenever the create or update handler returns 500
(an exception reached the catch block — e.g. a throwing upload or a throwing
database write — or an existing-image deletion failed before any upload), the
catch-block cleanup attempts to delete exactly the public ids uploaded during
that request. -/
theorem c9_cleanup_on_500 (guard : GuardResult) (form : PostForm)
    (pform : PatchForm) (existing : Option ExistingProject)
    (uf uf2 : Nat → Bool) (dbf dbf2 def2 : Bool) :
    ((postProject guard form uf dbf).status = 500 →
      (postProject guard form uf dbf).cleanupDeletes =
        (postProject guard form uf dbf).uploadedIds) ∧
    ((patchProject guard existing pform def2 uf2 dbf2).status = 500 →
      (patchProject guard existing pform def2 uf2 dbf2).cleanupDeletes =
        (patchProject guard existing pform def2 uf2 dbf2).uploadedIds) := by
  constructor
  · unfold postProject
    cases guard with
    | fail st => intro _; rfl
    | ok =>
      generalize titleValid form.title = T
      cases T with
      | none => intro _; rfl
      | some t => exact finish_cleanup_on_500 201 _ uf dbf (by decide)
  · unfold patchProject
    cases guard with
    | fail st => intro _; rfl
    | ok =>
      cases existing with
      | none => intro _; rfl
      | some ex =>
        dsimp only
        generalize titleValid pform.title = T
        cases T with
        | none => intro _; rfl
        | some t =>
          dsimp only
          split
          · split
            · intro _; rfl
            · split
              · intro _; rfl
              · exact finish_cleanup_on_500 200 _ uf2 dbf2 (by decide)
          · split
            · split
              · intro _; rfl
              · split
                · intro _; rfl
                · exact finish_cleanup_on_500 200 _ uf2 dbf2 (by decide)
            · split
              · intro _; rfl
              · intro h; simp at h

/-- Claim C9 witness: the theorem applied to a concrete request whose
database write throws after one successful upload — the 500 response is
preceded by a cleanup deletion of exactly that uploaded id. -/
theorem c9_witness :
    (postProject GuardResult.ok
      { title := some (.str "Title"), images := [.file ⟨5, "image/png"⟩] }
      (fun _ => false) true).status = 500 ∧
    (postProject GuardResult.ok
      { title := some (.str "Title"), images := [.file ⟨5, "image/png"⟩] }
      (fun _ => false) true).uploadedIds = [0] ∧
    (postProject GuardResult.ok
      { title := some (.str "Title"), images := [.file ⟨5, "image/png"⟩] }
      (fun _ => false) true).cleanupDeletes =
      (postProject GuardResult.ok
        { title := some (.str "Title"), images := [.file ⟨5, "image/png"⟩] }
        (fun _ => false) true).uploadedIds :=
  ⟨rfl, rfl,
    (c9_cleanup_on_500 GuardResult.ok
      { title := some (.str "Title"), images := [.file ⟨5, "image/png"⟩] }
      { title := none, images := [], removeImage := none, keepPublicIds := [] }
      none (fun _ => false) (fun _ => false) true false false).1 rfl⟩

/-! ## Tag data model and the tag item route (PATCH/DELETE /api/tags/[id]) -/

/-- Models JavaScript `String.prototype.toLowerCase` (ASCII range, which the
sources rely on) over the character list, so that it evaluates by kernel
reduction; also stands in for Prisma's `mode: "insensitive"` comparisons. -/
def lowerAscii (s : String) : String :=
  ⟨s.data.map Char.toLower⟩

/-- A row of the `Tag` table. Tag ids are modelled as naturals (the database
uses opaque unique cuid strings). -/
structure Tag where
  id : Nat
  name : String
deriving DecidableEq

/-- A row of the `ProjectTag` join table. -/
structure ProjectTag where
  projectId : String
  tagId : Nat
deriving DecidableEq

/-- A `Project` row as far as the tag routes can touch it. -/
structure SiteProject where
  id : String
  title : String
deriving DecidableEq

/-- The database state the tag routes read and write. -/
structure SiteDb where
  projects : List SiteProject
  projectTags : List ProjectTag
  tags : List Tag
deriving DecidableEq

/-- Result of a tag route: HTTP status and the database state afterwards. -/
structure TagRouteResult where
  status : Nat
  db : SiteDb
deriving DecidableEq

/-- Models `DELETE /api/tags/[id]` (tag item route): admin guard, 404 when the
tag does not exist, otherwise `prisma.projectTag.deleteMany({ where: { tagId } })`
followed by `prisma.tag.delete({ where: { id } })` and a success response. -/
def deleteTagRoute (guard : GuardResult) (db : SiteDb) (id : Nat) :
    TagRouteResult :=
  match guard with
  | .fail st => ⟨st, db⟩
  | .ok =>
    match db.tags.find? (fun t => t.id = id) with
    | none => ⟨404, db⟩
    | some _ =>
      ⟨200,
        { db with
          projectTags := db.projectTags.filter (fun pt => pt.tagId ≠ id),
          tags := db.tags.filter (fun t => t.id ≠ id) }⟩

/-- Models `PATCH /api/tags/[id]` (tag item route): admin guard; the body's
`name` is trimmed when it is a string and otherwise `null`; a falsy name gives
400; a missing tag gives 404; `prisma.tag.findFirst` looking for a different
tag with the same name case-insensitively gives 409; otherwise the tag row is
renamed. -/
def patchTagRoute (guard : GuardResult) (db : SiteDb) (id : Nat)
    (bodyName : Option FormVal) : TagRouteResult :=
  match guard with
  | .fail st => ⟨st, db⟩
  | .ok =>
    let name : Option String :=
      match bodyName with
      | some (.str s) => some (jsTrim s)
      | _ => none
    match name with
    | none => ⟨400, db⟩
    | some n =>
      if n = "" then ⟨400, db⟩
      else
        match db.tags.find? (fun t => t.id = id) with
        | none => ⟨404, db⟩
        | some _ =>
          match db.tags.find?
              (fun t => lowerAscii t.name = lowerAscii n && t.id ≠ id) with
          | some _ => ⟨409, db⟩
          | none =>
            ⟨200,
              { db with
                tags := db.tags.map
                  (fun t => if t.id = id then { t with name := n } else t) }⟩

/-! ## Claims C8 and C10 — the tag item route -/

/-- Claim C8 (confirmed): an admin DELETE /api/tags/[id] for an existing tag
succeeds, removes exactly the project-tag associations referencing that tag
(no association with the tag id survives, all others are kept), deletes the
tag row itself, and leaves the project records untouched. -/
theorem c8_delete_tag_frame (db : SiteDb) (id : Nat) (t0 : Tag)
    (hex : db.tags.find? (fun t => t.id = id) = some t0) :
    (deleteTagRoute GuardResult.ok db id).status = 200 ∧
    (deleteTagRoute GuardResult.ok db id).db.projects = db.projects ∧
    (deleteTagRoute GuardResult.ok db id).db.projectTags =
      db.projectTags.filter (fun pt => pt.tagId ≠ id) ∧
    (∀ pt ∈ (deleteTagRoute GuardResult.ok db id).db.projectTags,
      pt.tagId ≠ id) ∧
    (deleteTagRoute GuardResult.ok db id).db.tags =
      db.tags.filter (fun t => t.id ≠ id) ∧
    (∀ t ∈ (deleteTagRoute GuardResult.ok db id).db.tags, t.id ≠ id) := by
  have hd : deleteTagRoute GuardResult.ok db id
      = ⟨200,
          { db with
            projectTags := db.projectTags.filter (fun pt => pt.tagId ≠ id),
            tags := db.tags.filter (fun t => t.id ≠ id) }⟩ := by
    unfold deleteTagRoute
    rw [hex]
  refine ⟨by rw [hd], by rw [hd], by rw [hd], ?_, by rw [hd], ?_⟩
  · rw [hd]
    intro pt hpt
    simp only [List.mem_filter, decide_eq_true_eq] at hpt
    exact hpt.2
  · rw [hd]
    intro t ht
    simp only [List.mem_filter, decide_eq_true_eq] at ht
    exact ht.2

/-- Claim C8 witness: the theorem at a concrete database — deleting tag 1
removes its two associations, keeps tag 2's association, keeps the project. -/
theorem c8_witness :
    (deleteTagRoute GuardResult.ok
      ⟨[⟨"p1", "T"⟩], [⟨"p1", 1⟩, ⟨"p2", 1⟩, ⟨"p1", 2⟩], [⟨1, "a"⟩, ⟨2, "b"⟩]⟩
      1).status = 200 ∧
    (deleteTagRoute GuardResult.ok
      ⟨[⟨"p1", "T"⟩], [⟨"p1", 1⟩, ⟨"p2", 1⟩, ⟨"p1", 2⟩], [⟨1, "a"⟩, ⟨2, "b"⟩]⟩
      1).db.projects = [⟨"p1", "T"⟩] := by
  have h := c8_delete_tag_frame
    ⟨[⟨"p1", "T"⟩], [⟨"p1", 1⟩, ⟨"p2", 1⟩, ⟨"p1", 2⟩], [⟨1, "a"⟩, ⟨2, "b"⟩]⟩
    1 ⟨1, "a"⟩ rfl
  exact ⟨h.1, h.2.1⟩

/-- Claim C10 (confirmed): an admin PATCH /api/tags/[id] renaming an existing
tag to a non-blank name returns 409 and leaves the database unchanged when a
different tag already carries that name case-insensitively, and succeeds
(renaming exactly the addressed tag row) when no such conflict exists. -/
theorem c10_rename_conflict (db : SiteDb) (id : Nat) (s : String) (t0 : Tag)
    (hname : jsTrim s ≠ "")
    (hex : db.tags.find? (fun t => t.id = id) = some t0) :
    ((∃ t ∈ db.tags, t.id ≠ id ∧ lowerAscii t.name = lowerAscii (jsTrim s)) →
      (patchTagRoute GuardResult.ok db id (some (.str s))).status = 409 ∧
      (patchTagRoute GuardResult.ok db id (some (.str s))).db = db) ∧
    ((∀ t ∈ db.tags, t.id = id ∨ lowerAscii t.name ≠ lowerAscii (jsTrim s)) →
      (patchTagRoute GuardResult.ok db id (some (.str s))).status = 200 ∧
      (patchTagRoute GuardResult.ok db id (some (.str s))).db.tags =
        db.tags.map
          (fun t => if t.id = id then { t with name := jsTrim s } else t)) := by
  have hbase : patchTagRoute GuardResult.ok db id (some (.str s))
      = (match db.tags.find?
            (fun t => lowerAscii t.name = lowerAscii (jsTrim s) && t.id ≠ id) with
         | some _ => ⟨409, db⟩
         | none =>
           ⟨200,
             { db with
               tags := db.tags.map
                 (fun t => if t.id = id then { t with name := jsTrim s } else t) }⟩) := by
    unfold patchTagRoute
    dsimp only
    rw [if_neg hname, hex]
  constructor
  · intro hconf
    cases hfind : db.tags.find?
        (fun t => lowerAscii t.name = lowerAscii (jsTrim s) && t.id ≠ id) with
    | some t1 =>
      rw [hfind] at hbase
      exact ⟨by rw [hbase], by rw [hbase]⟩
    | none =>
      exfalso
      obtain ⟨t, ht, hne, hcase⟩ := hconf
      have := List.find?_eq_none.mp hfind t ht
      simp only [Bool.and_eq_true, decide_eq_true_eq, not_and] at this
      exact absurd hne (this hcase)
  · intro hnoconf
    have hfind : db.tags.find?
        (fun t => lowerAscii t.name = lowerAscii (jsTrim s) && t.id ≠ id) = none := by
      rw [List.find?_eq_none]
      intro t ht
      simp only [Bool.and_eq_true, decide_eq_true_eq, not_and]
      intro hcase
      rcases hnoconf t ht with h | h
      · intro hne; exact hne h
      · exact absurd hcase h
    rw [hfind] at hbase
    exact ⟨by rw [hbase], by rw [hbase]⟩

/-- Claim C10 witness: the theorem at concrete databases — renaming tag 1 to
"new" conflicts case-insensitively with tag 2 named "New" (409, unchanged),
and succeeds when no other tag carries the name. -/
theorem c10_witness :
    (patchTagRoute GuardResult.ok ⟨[], [], [⟨1, "old"⟩, ⟨2, "New"⟩]⟩ 1
      (some (.str "new"))).status = 409 ∧
    (patchTagRoute GuardResult.ok ⟨[], [], [⟨1, "old"⟩, ⟨2, "New"⟩]⟩ 1
      (some (.str "new"))).db = ⟨[], [], [⟨1, "old"⟩, ⟨2, "New"⟩]⟩ ∧
    (patchTagRoute GuardResult.ok ⟨[], [], [⟨1, "old"⟩]⟩ 1
      (some (.str "New"))).status = 200 := by
  have h1 := (c10_rename_conflict ⟨[], [], [⟨1, "old"⟩, ⟨2, "New"⟩]⟩ 1 "new"
    ⟨1, "old"⟩ (by decide) rfl).1 (by decide)
  have h2 := (c10_rename_conflict ⟨[], [], [⟨1, "old"⟩]⟩ 1 "New"
    ⟨1, "old"⟩ (by decide) rfl).2 (by decide)
  exact ⟨h1.1, h1.2, h2.1⟩

/-! ## Claim C6 — PATCH /api/projects/order (modelled from the spec) -/

/-- A `Project` row as the reorder endpoint selects it
(`select: { id: true, createdAt: true }`). -/
structure OrderProject where
  id : String
  createdAt : Nat
deriving DecidableEq

/-- A JSON array element of the reorder request body: a string or some other
JSON value (the route's tests submit numbers and nulls, which are filtered
out as invalid). -/
inductive BodyVal where
  | str (s : String)
  | other
deriving DecidableEq

/-- The result of the reorder endpoint: HTTP status and the ids whose rows
were updated, in update order. -/
structure ReorderResult where
  status : Nat
  updatedIds : List String
deriving DecidableEq

/-- The submitted ids that survive validation: string entries that do not
trim to the empty string (the route's tests filter out `" "`, numbers and
nulls as invalid). -/
def validOrderIds (ids : List BodyVal) : List String :=
  ids.filterMap (fun v =>
    match v with
    | .str s => if jsTrim s = "" then none else some s
    | .other => none)

/-- Modelled from the spec: the `PATCH /api/projects/order` route handler
file is not among the sources — only its unit tests are. Per the spec
("Reordering projects with a list of IDs not present in the database silently
ignores unknown IDs and reorders only the known ones") and the tests'
contract: the admin guard runs first; a missing, non-array or empty
`orderedIds` gives 400, as does a list whose entries are all invalid; the
handler then looks the valid ids up
(`prisma.project.findMany({ where: { id: { in: validIds } } })`) and updates
exactly the submitted ids that were found, in the submitted relative order
(one `prisma.project.update` per id inside a transaction, rewriting
`createdAt` within each calendar-day group), returning success. `updatedIds`
records the updated ids in update order; `none` for `orderedIds` stands for a
missing or non-array body field. -/
def reorderProjects (guard : GuardResult) (db : List OrderProject)
    (orderedIds : Option (List BodyVal)) : ReorderResult :=
  match guard with
  | .fail st => ⟨st, []⟩
  | .ok =>
    match orderedIds with
    | none => ⟨400, []⟩
    | some ids =>
      if ids.isEmpty then ⟨400, []⟩
      else
        let valid := validOrderIds ids
        if valid.isEmpty then ⟨400, []⟩
        else
          let found := db.filter (fun p => valid.contains p.id)
          let existingIds := found.map OrderProject.id
          ⟨200, valid.filter (fun i => existingIds.contains i)⟩

/-- Claim C6 (confirmed against the spec-model): for an admin reorder request
whose body has at least one valid id, the endpoint succeeds and updates
exactly the submitted valid ids that exist in the database, in the submitted
relative order — unknown ids are silently dropped rather than causing an
error. -/
theorem c6_reorder_ignores_unknown_ids (db : List OrderProject)
    (ids : List BodyVal) (h : validOrderIds ids ≠ []) :
    (reorderProjects GuardResult.ok db (some ids)).status = 200 ∧
    (reorderProjects GuardResult.ok db (some ids)).updatedIds =
      (validOrderIds ids).filter (fun i => db.any (fun p => p.id = i)) := by
  have hne : ids.isEmpty = false := by
    cases ids with
    | nil => exact absurd rfl h
    | cons a l => rfl
  have hve : (validOrderIds ids).isEmpty = false := by
    cases hv : validOrderIds ids with
    | nil => exact absurd hv h
    | cons a l => rfl
  have hr : reorderProjects GuardResult.ok db (some ids)
      = ⟨200, (validOrderIds ids).filter (fun i =>
          ((db.filter (fun p => (validOrderIds ids).contains p.id)).map
            OrderProject.id).contains i)⟩ := by
    unfold reorderProjects
    dsimp only
    rw [if_neg (by simp [hne]), if_neg (by simp [hve])]
  refine ⟨by rw [hr], ?_⟩
  rw [hr]
  dsimp only
  apply List.filter_congr
  intro i hi
  apply Bool.coe_iff_coe.mp
  simp only [List.contains, List.elem_eq_mem, List.mem_map, List.mem_filter,
    List.any_eq_true, decide_eq_true_eq]
  constructor
  · rintro ⟨p, ⟨hp, _⟩, hid⟩
    exact ⟨p, hp, hid⟩
  · rintro ⟨p, hp, hid⟩
    refine ⟨p, ⟨hp, ?_⟩, hid⟩
    rw [hid]
    exact hi

/-- Claim C6 witness: the theorem at the tests' concrete scenario — projects
a, b, c exist; submitting ["c", "a", "b", "non-existent"] updates exactly
c, a, b in that order and succeeds. -/
theorem c6_witness :
    (reorderProjects GuardResult.ok
      [⟨"a", 10⟩, ⟨"b", 10⟩, ⟨"c", 20⟩]
      (some [.str "c", .str "a", .str "b", .str "non-existent"])).status
      = 200 ∧
    (reorderProjects GuardResult.ok
      [⟨"a", 10⟩, ⟨"b", 10⟩, ⟨"c", 20⟩]
      (some [.str "c", .str "a", .str "b", .str "non-existent"])).updatedIds
      = ["c", "a", "b"] := by
  have h := c6_reorder_ignores_unknown_ids
    [⟨"a", 10⟩, ⟨"b", 10⟩, ⟨"c", 20⟩]
    [.str "c", .str "a", .str "b", .str "non-existent"] (by decide)
  refine ⟨h.1, ?_⟩
  rw [h.2]
  rfl

/-! ## Claim C7 — resolveTagNamesToIds (src/lib/tags.ts) -/

/-- The tag-table state `resolveTagNamesToIds` reads and writes. New tag ids
come from the `nextId` counter (the database draws fresh unique cuids; the
freshness invariant is `∀ t ∈ tags, t.id < nextId`). -/
structure TagDb where
  tags : List Tag
  nextId : Nat
deriving DecidableEq

/-- Models the dedup loop of `resolveTagNamesToIds` (tags.ts lines 8–17):
trim each name, drop blanks, drop names whose lower-cased key was already
seen, keep the first occurrence (trimmed) in order; `seen` is the `Set` of
lower-cased keys. -/
def dedupeGo : List String → List String → List String
  | [], _ => []
  | n :: rest, seen =>
    let trimmed := jsTrim n
    if trimmed = "" then dedupeGo rest seen
    else if seen.contains (lowerAscii trimmed) then dedupeGo rest seen
    else trimmed :: dedupeGo rest (lowerAscii trimmed :: seen)

/-- The deduplicated, trimmed name list (`toCreate` in the source). -/
def dedupeNames (names : List String) : List String :=
  dedupeGo names []

/-- Lookup in the lower-cased-name-to-id map, modelled as an association list
where the most recent insertion is found first (JavaScript `Map` semantics:
the latest `set` for a key wins). -/
def lookupLower (m : List (String × Nat)) (k : String) : Option Nat :=
  (m.find? (fun e => e.1 = k)).map (fun e => e.2)

/-- Models the `where: { name: { in: toCreate, mode: "insensitive" } }`
predicate of the `findMany` call: the tag's name equals some requested name
case-insensitively. -/
def tagMatchesAny (toCreate : List String) (t : Tag) : Bool :=
  toCreate.any (fun n => lowerAscii n = lowerAscii t.name)

/-- The `existing` list of the source: the stored tags matching any requested
name case-insensitively. -/
def existingFor (toCreate : List String) (db : TagDb) : List Tag :=
  db.tags.filter (tagMatchesAny toCreate)

/-- The `existingLower` map of the source, built from the `existing` rows
(`new Map(existing.map ...)`: a later row with the same key wins, modelled by
prepending). -/
def existingLowerFor (toCreate : List String) (db : TagDb) :
    List (String × Nat) :=
  (existingFor toCreate db).foldl
    (fun m t => (lowerAscii t.name, t.id) :: m) []

/-- The `toInsert` list of the source: requested names with no entry in the
`existingLower` map. -/
def toInsertFor (toCreate : List String) (db : TagDb) : List String :=
  toCreate.filter
    (fun n => (lookupLower (existingLowerFor toCreate db) (lowerAscii n)).isNone)

/-- Models the creation loop of the source (tags.ts lines 28–34): for each
name to insert, create a tag with a fresh id and record it in the map. -/
def createMissing : List String → List (String × Nat) → TagDb →
    List (String × Nat) × TagDb
  | [], m, db => (m, db)
  | n :: rest, m, db =>
    createMissing rest ((lowerAscii n, db.nextId) :: m)
      ⟨db.tags ++ [⟨db.nextId, n⟩], db.nextId + 1⟩

/-- The tag rows the creation loop appends: one per name, with consecutive
fresh ids starting at `k`. -/
def newTags : List String → Nat → List Tag
  | [], _ => []
  | n :: rest, k => ⟨k, n⟩ :: newTags rest (k + 1)

/-- Models `resolveTagNamesToIds` (tags.ts lines 7–37): dedupe the names,
return `[]` when nothing is left, otherwise look up the case-insensitive
matches among the stored tags, create tags for the unmatched names, and map
each deduplicated name to its id (the final `.filter(Boolean)` of the source
is the `filterMap`). Returns the ids and the updated tag table. -/
def resolveTagNamesToIds (names : List String) (db : TagDb) :
    List Nat × TagDb :=
  let toCreate := dedupeNames names
  if toCreate.isEmpty then ([], db)
  else
    let md := createMissing (toInsertFor toCreate db)
      (existingLowerFor toCreate db) db
    (toCreate.filterMap (fun n => lookupLower md.1 (lowerAscii n)), md.2)

/-- The dedup loop produces a subsequence of the trimmed input names. -/
theorem dedupeGo_sublist : ∀ (names seen : List String),
    List.Sublist (dedupeGo names seen) (names.map jsTrim) := by
  intro names
  induction names with
  | nil => intro seen; simp [dedupeGo]
  | cons n rest ih =>
    intro seen
    unfold dedupeGo
    dsimp only
    split
    · exact (ih seen).cons (jsTrim n)
    · split
      · exact (ih seen).cons (jsTrim n)
      · exact (ih (lowerAscii (jsTrim n) :: seen)).cons₂ (jsTrim n)

/-- No kept name is blank. -/
theorem dedupeGo_ne_empty : ∀ (names seen : List String) (n : String),
    n ∈ dedupeGo names seen → n ≠ "" := by
  intro names
  induction names with
  | nil => intro seen n hn; simp [dedupeGo] at hn
  | cons m rest ih =>
    intro seen n hn
    unfold dedupeGo at hn
    dsimp only at hn
    split at hn
    · exact ih seen n hn
    · split at hn
      · exact ih seen n hn
      · rcases List.mem_cons.mp hn with h | h
        · rename_i hne _
          rw [h]
          exact hne
        · exact ih (lowerAscii (jsTrim m) :: seen) n h

/-- The lower-cased keys of the kept names are distinct and avoid the seen
set. -/
theorem dedupeGo_keys_nodup : ∀ (names seen : List String),
    ((dedupeGo names seen).map lowerAscii).Nodup ∧
    ∀ k ∈ (dedupeGo names seen).map lowerAscii, k ∉ seen := by
  intro names
  induction names with
  | nil => intro seen; simp [dedupeGo]
  | cons n rest ih =>
    intro seen
    unfold dedupeGo
    dsimp only
    split
    · exact ih seen
    · split
      · exact ih seen
      · rename_i hne hseen
        obtain ⟨ihn, ihs⟩ := ih (lowerAscii (jsTrim n) :: seen)
        constructor
        · rw [List.map_cons]
          refine List.Nodup.cons ?_ ihn
          intro hmem
          exact (ihs _ hmem) (List.mem_cons_self _ _)
        · intro k hk
          rw [List.map_cons] at hk
          rcases List.mem_cons.mp hk with h | h
          · rw [h]
            intro hks
            apply hseen
            simp only [List.contains, List.elem_eq_mem, decide_eq_true_eq]
            exact hks
          · intro hks
            exact (ihs k h) (List.mem_cons_of_mem _ hks)

/-- Every non-blank input name is covered: its key appears among the kept
keys (unless already seen). -/
theorem dedupeGo_covers : ∀ (names seen : List String) (n : String),
    n ∈ names → jsTrim n ≠ "" → lowerAscii (jsTrim n) ∉ seen →
    lowerAscii (jsTrim n) ∈ (dedupeGo names seen).map lowerAscii := by
  intro names
  induction names with
  | nil => intro seen n hn; simp at hn
  | cons m rest ih =>
    intro seen n hn hne hns
    unfold dedupeGo
    dsimp only
    rcases List.mem_cons.mp hn with h | h
    · subst h
      rw [if_neg hne]
      rw [if_neg (by
        intro hc
        apply hns
        simpa only [List.contains, List.elem_eq_mem, decide_eq_true_eq] using hc)]
      rw [List.map_cons]
      exact List.mem_cons_self _ _
    · split
      · exact ih seen n h hne hns
      · split
        · exact ih seen n h hne hns
        · rename_i hme hms
          by_cases hkey : lowerAscii (jsTrim n) = lowerAscii (jsTrim m)
          · rw [List.map_cons, hkey]
            exact List.mem_cons_self _ _
          · rw [List.map_cons]
            refine List.mem_cons_of_mem _ ?_
            refine ih (lowerAscii (jsTrim m) :: seen) n h hne ?_
            intro hmem
            rcases List.mem_cons.mp hmem with hh | hh
            · exact hkey hh
            · exact hns hh

/-- The first occurrence of a key is kept verbatim (trimmed): if no earlier
input name shares the key (and the key is not already seen), the trimmed name
itself appears in the output. -/
theorem dedupeGo_first_occ : ∀ (p : List String) (n : String)
    (s seen : List String), jsTrim n ≠ "" →
    lowerAscii (jsTrim n) ∉ seen →
    lowerAscii (jsTrim n) ∉ p.map (fun x => lowerAscii (jsTrim x)) →
    jsTrim n ∈ dedupeGo (p ++ n :: s) seen := by
  intro p
  induction p with
  | nil =>
    intro n s seen hne hns _
    rw [List.nil_append]
    unfold dedupeGo
    dsimp only
    rw [if_neg hne]
    rw [if_neg (by
      intro hc
      apply hns
      simpa only [List.contains, List.elem_eq_mem, decide_eq_true_eq] using hc)]
    exact List.mem_cons_self _ _
  | cons x p ih =>
    intro n s seen hne hns hnp
    rw [List.cons_append]
    unfold dedupeGo
    dsimp only
    have hnx : lowerAscii (jsTrim n) ≠ lowerAscii (jsTrim x) := by
      intro hh
      apply hnp
      rw [List.map_cons]
      exact List.mem_cons.mpr (Or.inl hh)
    have hnp2 : lowerAscii (jsTrim n) ∉ p.map (fun y => lowerAscii (jsTrim y)) := by
      intro hh
      apply hnp
      rw [List.map_cons]
      exact List.mem_cons.mpr (Or.inr hh)
    split
    · exact ih n s seen hne hns hnp2
    · split
      · exact ih n s seen hne hns hnp2
      · refine List.mem_cons_of_mem _ ?_
        refine ih n s (lowerAscii (jsTrim x) :: seen) hne ?_ hnp2
        intro hmem
        rcases List.mem_cons.mp hmem with hh | hh
        · exact hnx hh
        · exact hns hh

/-- Lookup in a prepended association entry. -/
theorem lookupLower_cons (m : List (String × Nat)) (k k' : String) (v : Nat) :
    lookupLower ((k, v) :: m) k'
      = if k = k' then some v else lookupLower m k' := by
  unfold lookupLower
  by_cases h : k = k'
  · rw [if_pos h, List.find?_cons_of_pos _ (by simp [h])]
    rfl
  · rw [if_neg h, List.find?_cons_of_neg _ (by simp [h])]

/-- A hit in the map built by the `existingLower` fold comes from one of the
folded rows or from the initial map. -/
theorem foldlLower_lookup_some : ∀ (l : List Tag) (m0 : List (String × Nat))
    (k : String) (v : Nat),
    lookupLower (l.foldl (fun m t => (lowerAscii t.name, t.id) :: m) m0) k
      = some v →
    (∃ t ∈ l, lowerAscii t.name = k ∧ t.id = v) ∨ lookupLower m0 k = some v := by
  intro l
  induction l with
  | nil => intro m0 k v h; exact Or.inr h
  | cons t l ih =>
    intro m0 k v h
    rw [List.foldl_cons] at h
    rcases ih _ k v h with h1 | h1
    · obtain ⟨t2, ht2, hk, hv⟩ := h1
      exact Or.inl ⟨t2, List.mem_cons_of_mem _ ht2, hk, hv⟩
    · rw [lookupLower_cons] at h1
      by_cases hk : lowerAscii t.name = k
      · rw [if_pos hk] at h1
        exact Or.inl ⟨t, List.mem_cons_self _ _, hk, Option.some_inj.mp h1⟩
      · rw [if_neg hk] at h1
        exact Or.inr h1

/-- The `existingLower` fold keeps every key it is given: a key present among
the folded rows (or in the initial map) is found. -/
theorem foldlLower_lookup_isSome : ∀ (l : List Tag) (m0 : List (String × Nat))
    (k : String),
    ((∃ t ∈ l, lowerAscii t.name = k) ∨ (lookupLower m0 k).isSome) →
    (lookupLower (l.foldl (fun m t => (lowerAscii t.name, t.id) :: m) m0)
      k).isSome := by
  intro l
  induction l with
  | nil =>
    intro m0 k h
    rcases h with ⟨t, ht, _⟩ | h
    · simp at ht
    · exact h
  | cons t l ih =>
    intro m0 k h
    rw [List.foldl_cons]
    apply ih
    rcases h with ⟨t2, ht2, hk⟩ | hs
    · rcases List.mem_cons.mp ht2 with hh | hh
      · subst hh
        right
        rw [lookupLower_cons, if_pos hk]
        rfl
      · exact Or.inl ⟨t2, hh, hk⟩
    · right
      rw [lookupLower_cons]
      split
      · rfl
      · exact hs

/-- A key is found in the `existingLower` map iff some matching row was
folded in. -/
theorem existingLower_isSome_iff (toCreate : List String) (db : TagDb)
    (k : String) :
    (lookupLower (existingLowerFor toCreate db) k).isSome ↔
    ∃ t ∈ existingFor toCreate db, lowerAscii t.name = k := by
  constructor
  · intro h
    cases hv : lookupLower (existingLowerFor toCreate db) k with
    | none => rw [hv] at h; simp at h
    | some v =>
      unfold existingLowerFor at hv
      rcases foldlLower_lookup_some _ [] k v hv with h1 | h1
      · obtain ⟨t, ht, hk, _⟩ := h1
        exact ⟨t, ht, hk⟩
      · simp [lookupLower] at h1
  · intro h
    obtain ⟨t, ht, hk⟩ := h
    exact foldlLower_lookup_isSome _ [] k (Or.inl ⟨t, ht, hk⟩)

/-- The creation loop appends exactly one fresh-id tag per name, advancing
the counter. -/
theorem createMissing_db : ∀ (l : List String) (m : List (String × Nat))
    (db : TagDb),
    (createMissing l m db).2.tags = db.tags ++ newTags l db.nextId ∧
    (createMissing l m db).2.nextId = db.nextId + l.length := by
  intro l
  induction l with
  | nil => intro m db; constructor <;> simp [createMissing, newTags]
  | cons n rest ih =>
    intro m db
    unfold createMissing
    obtain ⟨h1, h2⟩ := ih ((lowerAscii n, db.nextId) :: m)
      ⟨db.tags ++ [⟨db.nextId, n⟩], db.nextId + 1⟩
    constructor
    · rw [h1]
      dsimp only
      rw [List.append_assoc]
      rfl
    · rw [h2]
      have hx : ((⟨db.tags ++ [⟨db.nextId, n⟩], db.nextId + 1⟩ : TagDb)).nextId
          = db.nextId + 1 := rfl
      rw [hx]
      simp only [List.length_cons]
      omega

/-- The creation loop does not disturb lookups for keys it does not insert. -/
theorem createMissing_lookup_preserved : ∀ (l : List String)
    (m : List (String × Nat)) (db : TagDb) (k : String),
    k ∉ l.map lowerAscii →
    lookupLower (createMissing l m db).1 k = lookupLower m k := by
  intro l
  induction l with
  | nil => intro m db k _; rfl
  | cons n rest ih =>
    intro m db k hk
    have hk1 : k ≠ lowerAscii n := by
      intro hh
      exact hk (by rw [List.map_cons, hh]; exact List.mem_cons_self _ _)
    have hk2 : k ∉ rest.map lowerAscii := by
      intro hh
      exact hk (by rw [List.map_cons]; exact List.mem_cons_of_mem _ hh)
    unfold createMissing
    rw [ih _ _ k hk2, lookupLower_cons, if_neg (fun hh => hk1 hh.symm)]

/-- Every name given to the creation loop ends up with a fresh id: its key is
found in the final map, the id is at least the starting counter, and the
created tag row (that id, that exact name) is in the final table. -/
theorem createMissing_lookup_creates : ∀ (l : List String)
    (m : List (String × Nat)) (db : TagDb) (n : String),
    n ∈ l → (l.map lowerAscii).Nodup →
    ∃ v, lookupLower (createMissing l m db).1 (lowerAscii n) = some v ∧
      db.nextId ≤ v ∧ (⟨v, n⟩ : Tag) ∈ (createMissing l m db).2.tags := by
  intro l
  induction l with
  | nil => intro m db n hn; simp at hn
  | cons x rest ih =>
    intro m db n hn hnd
    rw [List.map_cons] at hnd
    obtain ⟨hx_notin, hrest_nodup⟩ := List.nodup_cons.mp hnd
    unfold createMissing
    rcases List.mem_cons.mp hn with hh | hh
    · subst hh
      refine ⟨db.nextId, ?_, Nat.le_refl _, ?_⟩
      · rw [createMissing_lookup_preserved rest _ _ (lowerAscii n) hx_notin,
          lookupLower_cons, if_pos rfl]
      · rw [(createMissing_db rest _ _).1]
        dsimp only
        refine List.mem_append.mpr (Or.inl ?_)
        exact List.mem_append.mpr (Or.inr (by simp))
    · obtain ⟨v, hv, hle, hmem⟩ := ih ((lowerAscii x, db.nextId) :: m)
        ⟨db.tags ++ [⟨db.nextId, x⟩], db.nextId + 1⟩ n hh hrest_nodup
      refine ⟨v, hv, ?_, hmem⟩
      have hle2 : db.nextId + 1 ≤ v := hle
      omega

/-- Pairing a list with its `filterMap` image when every element maps to a
related value. -/
theorem forall2_filterMap {α β : Type} (R : α → β → Prop) (f : α → Option β) :
    ∀ l : List α, (∀ a ∈ l, ∃ b, f a = some b ∧ R a b) →
    List.Forall₂ R l (l.filterMap f) := by
  intro l
  induction l with
  | nil => intro _; simp [List.filterMap_nil]
  | cons a l ih =>
    intro h
    obtain ⟨b, hb, hR⟩ := h a (List.mem_cons_self _ _)
    rw [List.filterMap_cons_some hb]
    exact List.Forall₂.cons hR (ih (fun x hx => h x (List.mem_cons_of_mem _ hx)))

/-- For a requested name, matching rows among the `findMany` result
(`existing`) are the same as matching rows in the whole table. -/
theorem mem_existing_iff (toCreate : List String) (db : TagDb) (n : String)
    (hn : n ∈ toCreate) :
    (∃ t ∈ existingFor toCreate db, lowerAscii t.name = lowerAscii n) ↔
    (∃ t ∈ db.tags, lowerAscii t.name = lowerAscii n) := by
  unfold existingFor
  constructor
  · rintro ⟨t, ht, hk⟩
    exact ⟨t, (List.mem_filter.mp ht).1, hk⟩
  · rintro ⟨t, ht, hk⟩
    refine ⟨t, List.mem_filter.mpr ⟨ht, ?_⟩, hk⟩
    unfold tagMatchesAny
    rw [List.any_eq_true]
    refine ⟨n, hn, ?_⟩
    simp only [decide_eq_true_eq]
    exact hk.symm

/-- A requested name is in `toInsert` precisely when no stored tag matches it
case-insensitively. -/
theorem toInsert_isNone_iff (toCreate : List String) (db : TagDb) (n : String)
    (hn : n ∈ toCreate) :
    ((lookupLower (existingLowerFor toCreate db) (lowerAscii n)).isNone = true)
      ↔ (∀ t ∈ db.tags, lowerAscii t.name ≠ lowerAscii n) := by
  have hiff := (existingLower_isSome_iff toCreate db (lowerAscii n)).trans
    (mem_existing_iff toCreate db n hn)
  cases ho : lookupLower (existingLowerFor toCreate db) (lowerAscii n) with
  | none =>
    constructor
    · intro _ t ht hk
      have hs := hiff.mpr ⟨t, ht, hk⟩
      rw [ho] at hs
      simp at hs
    · intro _
      rfl
  | some v =>
    constructor
    · intro h
      cases h
    · intro hall
      exfalso
      have hs : (lookupLower (existingLowerFor toCreate db)
          (lowerAscii n)).isSome := by rw [ho]; rfl
      obtain ⟨t, ht, hk⟩ := hiff.mp hs
      exact hall t ht hk

/-- Claim C7 (confirmed): `resolveTagNamesToIds` deduplicates the input
case-insensitively after trimming — the deduplicated list is an in-order
subsequence of the trimmed names, contains no blank, has pairwise distinct
lower-cased keys, covers every non-blank input name, and keeps the first
occurrence verbatim; the tag table gains exactly one new tag (fresh id, the
deduplicated spelling) per name with no case-insensitive match, in order; and
the returned ids line up one-to-one with the deduplicated names in
first-occurrence order, each id being an existing matching tag's id or the
fresh id of the tag created for that name. -/
theorem c7_resolve_tags (names : List String) (db : TagDb)
    (hfresh : ∀ t ∈ db.tags, t.id < db.nextId) :
    List.Sublist (dedupeNames names) (names.map jsTrim) ∧
    (∀ n ∈ dedupeNames names, n ≠ "") ∧
    ((dedupeNames names).map lowerAscii).Nodup ∧
    (∀ n ∈ names, jsTrim n ≠ "" →
      lowerAscii (jsTrim n) ∈ (dedupeNames names).map lowerAscii) ∧
    (∀ p n s, names = p ++ n :: s → jsTrim n ≠ "" →
      lowerAscii (jsTrim n) ∉ p.map (fun x => lowerAscii (jsTrim x)) →
      jsTrim n ∈ dedupeNames names) ∧
    (resolveTagNamesToIds names db).2.tags =
      db.tags ++ newTags ((dedupeNames names).filter
        (fun n => !(db.tags.any (fun t => lowerAscii t.name = lowerAscii n))))
        db.nextId ∧
    List.Forall₂ (fun n i =>
        (∃ t ∈ db.tags, lowerAscii t.name = lowerAscii n ∧ i = t.id) ∨
        ((∀ t ∈ db.tags, lowerAscii t.name ≠ lowerAscii n) ∧ db.nextId ≤ i ∧
          (∀ t ∈ db.tags, i ≠ t.id) ∧
          (⟨i, n⟩ : Tag) ∈ (resolveTagNamesToIds names db).2.tags))
      (dedupeNames names) (resolveTagNamesToIds names db).1 := by
  have hnodup := (dedupeGo_keys_nodup names []).1
  refine ⟨dedupeGo_sublist names [],
    fun n hn => dedupeGo_ne_empty names [] n hn,
    hnodup,
    fun n hn hne => dedupeGo_covers names [] n hn hne (by simp),
    ?_, ?_⟩
  · intro p n s hns hne hp
    rw [hns]
    exact dedupeGo_first_occ p n s [] hne (by simp) hp
  by_cases hemp : dedupeNames names = []
  · have hres : resolveTagNamesToIds names db = ([], db) := by
      unfold resolveTagNamesToIds
      dsimp only
      rw [hemp]
      rfl
    constructor
    · rw [hres, hemp]
      simp [newTags]
    · rw [hres, hemp]
      exact List.Forall₂.nil
  · have hne2 : (dedupeNames names).isEmpty = false := by
      cases h2 : dedupeNames names with
      | nil => exact absurd h2 hemp
      | cons c cs => rfl
    have hres : resolveTagNamesToIds names db
        = ((dedupeNames names).filterMap (fun n =>
            lookupLower (createMissing (toInsertFor (dedupeNames names) db)
              (existingLowerFor (dedupeNames names) db) db).1 (lowerAscii n)),
           (createMissing (toInsertFor (dedupeNames names) db)
              (existingLowerFor (dedupeNames names) db) db).2) := by
      unfold resolveTagNamesToIds
      dsimp only
      rw [if_neg (by simp [hne2])]
    have hfeq : toInsertFor (dedupeNames names) db
        = (dedupeNames names).filter
            (fun n => !(db.tags.any
              (fun t => lowerAscii t.name = lowerAscii n))) := by
      unfold toInsertFor
      apply List.filter_congr
      intro n hn
      apply Bool.coe_iff_coe.mp
      rw [toInsert_isNone_iff (dedupeNames names) db n hn]
      simp [List.any_eq_false]
    have hpoint : ∀ n ∈ dedupeNames names, ∃ v,
        lookupLower (createMissing (toInsertFor (dedupeNames names) db)
          (existingLowerFor (dedupeNames names) db) db).1 (lowerAscii n)
          = some v ∧
        ((∃ t ∈ db.tags, lowerAscii t.name = lowerAscii n ∧ v = t.id) ∨
         ((∀ t ∈ db.tags, lowerAscii t.name ≠ lowerAscii n) ∧
           db.nextId ≤ v ∧ (∀ t ∈ db.tags, v ≠ t.id) ∧
           (⟨v, n⟩ : Tag) ∈ (createMissing (toInsertFor (dedupeNames names) db)
             (existingLowerFor (dedupeNames names) db) db).2.tags)) := by
      intro n hn
      by_cases hmatch : ∃ t ∈ db.tags, lowerAscii t.name = lowerAscii n
      · have hsome : (lookupLower (existingLowerFor (dedupeNames names) db)
            (lowerAscii n)).isSome :=
          (existingLower_isSome_iff (dedupeNames names) db
            (lowerAscii n)).mpr
            ((mem_existing_iff (dedupeNames names) db n hn).mpr hmatch)
        have hnotIns : lowerAscii n ∉
            (toInsertFor (dedupeNames names) db).map lowerAscii := by
          intro hmem
          obtain ⟨n2, hn2, hkey⟩ := List.mem_map.mp hmem
          have hn2f := List.mem_filter.mp hn2
          have hnone := hn2f.2
          rw [hkey] at hnone
          rw [Option.isNone_iff_eq_none] at hnone
          rw [hnone] at hsome
          simp at hsome
        obtain ⟨v, hv⟩ := Option.isSome_iff_exists.mp hsome
        refine ⟨v, ?_, Or.inl ?_⟩
        · rw [createMissing_lookup_preserved _ _ _ _ hnotIns]
          exact hv
        · unfold existingLowerFor at hv
          rcases foldlLower_lookup_some _ [] _ v hv with h1 | h1
          · obtain ⟨t, ht, hk, hid⟩ := h1
            exact ⟨t, (List.mem_filter.mp ht).1, hk, hid.symm⟩
          · simp [lookupLower] at h1
      · push_neg at hmatch
        have hnone : (lookupLower (existingLowerFor (dedupeNames names) db)
            (lowerAscii n)).isNone = true :=
          (toInsert_isNone_iff (dedupeNames names) db n hn).mpr hmatch
        have hmemIns : n ∈ toInsertFor (dedupeNames names) db :=
          List.mem_filter.mpr ⟨hn, hnone⟩
        have hinsNodup : ((toInsertFor (dedupeNames names) db).map
            lowerAscii).Nodup :=
          hnodup.sublist ((List.filter_sublist _).map lowerAscii)
        obtain ⟨v, hv, hle, hmem⟩ := createMissing_lookup_creates
          (toInsertFor (dedupeNames names) db)
          (existingLowerFor (dedupeNames names) db) db n hmemIns hinsNodup
        refine ⟨v, hv, Or.inr ⟨hmatch, hle, ?_, hmem⟩⟩
        intro t ht
        have := hfresh t ht
        omega
    constructor
    · rw [hres]
      dsimp only
      rw [(createMissing_db _ _ _).1, hfeq]
    · rw [hres]
      dsimp only
      exact forall2_filterMap _ _ _ hpoint

/-- Claim C7 witness: the theorem at a concrete run — input
["Kitchen", " kitchen ", "", "Bath"] against a table holding "KITCHEN" (id 1)
dedupes to ["Kitchen", "Bath"], reuses id 1 for "Kitchen", creates "Bath"
with the fresh id 2. -/
theorem c7_witness :
    (resolveTagNamesToIds ["Kitchen", " kitchen ", "", "Bath"]
      ⟨[⟨1, "KITCHEN"⟩], 2⟩).2.tags = [⟨1, "KITCHEN"⟩, ⟨2, "Bath"⟩] ∧
    (resolveTagNamesToIds ["Kitchen", " kitchen ", "", "Bath"]
      ⟨[⟨1, "KITCHEN"⟩], 2⟩).1 = [1, 2] := by
  have h := c7_resolve_tags ["Kitchen", " kitchen ", "", "Bath"]
    ⟨[⟨1, "KITCHEN"⟩], 2⟩ (by decide)
  have htags := h.2.2.2.2.2.1
  constructor
  · rw [htags]
    rfl
  · rfl
